import Mathlib

/-!
Verification development for `bda_manager.py`, the single source file of the
Amazon-Bedrock-Data-Automation repository.  The Python code drives a managed
extraction service: it provisions a named "data automation project"
(`_project_exists`, `create_bda_project`), submits an asynchronous job, polls
its status until it leaves `"InProgress"` (the `while` loop in `main`,
lines 259-271), loads the result manifest with pandas
(`retrieve_inference_results`, lines 196-212), fetches per-segment detail
documents (`read_custom_out_path_and_load`, lines 174-194) and reconciles the
custom- and standard-output records into one table (`main`, lines 281-313).

The embedding below models pandas DataFrames as lists of rows, a row being an
association list from column labels to JSON values.  Two conventions:
a missing column and a pandas `NaN` cell are both modelled by `JsonVal.null`
in cell ACCESS (`pd.concat` fills columns missing on one side with `NaN`,
and `dropna` treats both the same way, so for the frames manipulated here
the two coincide); and `pd.json_normalize`, which raises `AttributeError`
as soon as any record of its input is not a dict — it never skips or blanks
a `NaN` — is modelled as a fallible function returning `Except.error` in
exactly that case, and the callers propagate the error as the Python call
stack would.
-/

set_option autoImplicit false

namespace BdaManager

/-- JSON values as they occur in the manifest and detail documents:
strings, numbers (only naturals are needed), arrays, objects, and
`null` (also standing for pandas `NaN` / a missing cell). -/
inductive JsonVal where
  | s (v : String)
  | n (v : Nat)
  | arr (vs : List JsonVal)
  | obj (fields : List (String × JsonVal))
  | null
deriving Repr

/-- A DataFrame row: association list from column labels to cell values.
Lookups take the first matching entry, as pandas column labels are unique
in the frames manipulated by the source. -/
abbrev Row := List (String × JsonVal)

/-- A DataFrame: a list of rows. -/
abbrev DF := List Row

/-- Cell lookup: value of column `c` in row `r`, `null` when the column is
absent (see the file header for why absence and `NaN` coincide here). -/
def getCol (r : Row) (c : String) : JsonVal :=
  match r.find? (fun kv => kv.1 == c) with
  | some kv => kv.2
  | none => .null

/-- Whether row `r` carries an entry for column `c`. -/
def hasCol (r : Row) (c : String) : Bool :=
  r.any (fun kv => kv.1 == c)

/-- Replace the value of an existing column `c` (every entry labelled `c`,
of which there is at most one in the frames at hand). -/
def replaceCol (r : Row) (c : String) (v : JsonVal) : Row :=
  r.map (fun kv => if kv.1 == c then (kv.1, v) else kv)

/-- Pandas column assignment `df[c] = v`: overwrite the column when present,
append it otherwise. -/
def setCol (r : Row) (c : String) (v : JsonVal) : Row :=
  if hasCol r c then replaceCol r c v else r ++ [(c, v)]

mutual
/-- One field of `pd.json_normalize` with separator `"."`: a nested object
under `key` contributes one dotted column per leaf, any other value
contributes the single column `key`. -/
def flattenField (key : String) : JsonVal → List (String × JsonVal)
  | .obj fs => flattenFields key fs
  | v => [(key, v)]

/-- Flatten a list of object fields below the dotted path `key`. -/
def flattenFields (key : String) : List (String × JsonVal) → List (String × JsonVal)
  | [] => []
  | (k, v) :: rest => flattenField (key ++ "." ++ k) v ++ flattenFields key rest
end

/-- Top level of the field list of a record being normalized (no dotted
path accumulated yet). -/
def flattenTop : List (String × JsonVal) → List (String × JsonVal)
  | [] => []
  | (k, v) :: rest => flattenField k v ++ flattenTop rest

/-- Whether a cell holds a dict record — the only values `pd.json_normalize`
accepts. -/
def isObj : JsonVal → Bool
  | .obj _ => true
  | _ => false

/-- The field list of a dict cell.  Only ever consulted under an `isObj`
hypothesis (or behind the guard in `normalizeCells`); the non-object arm
exists for totality alone and no theorem's content depends on it. -/
def objFields : JsonVal → List (String × JsonVal)
  | .obj fs => fs
  | _ => []

/-- `pd.DataFrame.explode` on one cell: a non-empty list yields its
elements, an empty list yields a single `NaN` row, and a scalar is
returned unchanged — exactly the documented pandas semantics. -/
def explodeCell : JsonVal → List JsonVal
  | .arr [] => [.null]
  | .arr (v :: vs) => v :: vs
  | v => [v]

/-- Column-wise `pd.concat(..., axis=1)` of two row-aligned frames. -/
def concatCols (df1 df2 : DF) : DF :=
  df1.zipWith (fun a b => a ++ b) df2

/-- The values of column `c` down a frame. -/
def colVals (df : DF) (c : String) : List JsonVal :=
  df.map (fun r => getCol r c)

/-- The record-by-record core of `pd.json_normalize` over a column: each
DICT record flattens into dotted columns; encountering ANY non-dict record
(a `NaN`, a list, a scalar) aborts the whole call — pandas raises
`AttributeError` rather than skipping or blanking such records.  An empty
column yields an empty frame without error. -/
def normalizeCells : List JsonVal → Option DF
  | [] => some []
  | .obj fs :: vs => (normalizeCells vs).map (fun d => flattenTop fs :: d)
  | _ :: _ => none

/-- `pd.json_normalize` over a column of records: the `AttributeError` it
raises on a non-dict record is modelled as an `Except.error`. -/
def json_normalize_df (vs : List JsonVal) : Except String DF :=
  match normalizeCells vs with
  | some d => .ok d
  | none => .error "AttributeError: json_normalize on a non-dict record"

/-- `pd.DataFrame.explode` on column `c`: each row is repeated once per
element of its cell, the cell being replaced by that element. -/
def explode_df (df : DF) (c : String) : DF :=
  df.flatMap (fun r => (explodeCell (getCol r c)).map (fun v => replaceCol r c v))

/-! ### JobStatusPoller (source: `main`, lines 259-271)

The source performs one initial `get_data_automation_status` call and then
loops: `while response_bda_run_status.get("status") == "InProgress":` sleep
ten seconds, poll again.  We model the job's observable behaviour as a
script: the payload of the initial call plus the list of payloads the
successive re-polls would return.  The result pairs the payload on which the
loop exits with the number of delayed re-polls performed (each re-poll is
preceded by one `time.sleep(10)`); `none` models the loop never exiting
because the script is exhausted while the status still reads `"InProgress"`. -/

/-- Status payload returned by `get_bda_inference_status`: the `status`
string and the `outputConfiguration` manifest location (when present). -/
structure StatusPayload where
  status : String
  outputConfiguration : Option String
deriving Repr, DecidableEq

/-- The polling loop of `main`: keep polling while the current payload's
status equals the literal `"InProgress"`, counting delayed re-polls. -/
def awaitCompletion : StatusPayload → List StatusPayload → Option (StatusPayload × Nat)
  | cur, [] => if cur.status = "InProgress" then none else some (cur, 0)
  | cur, p :: ps =>
    if cur.status = "InProgress" then
      (awaitCompletion p ps).map (fun r => (r.1, r.2 + 1))
    else
      some (cur, 0)

/-! ### ResultLoader (source: `retrieve_inference_results`, lines 196-212, and
`read_custom_out_path_and_load`, lines 174-194)

Blob-storage reads are abstracted by a `fetch` function `String → Except
String DF`: `wr.s3.read_json(path, orient="records", lines=True)` either
returns a frame of records or raises, which the source catches per location. -/

/-- String content of a cell, for use as an S3 URI. -/
def asStr : JsonVal → String
  | .s v => v
  | _ => ""

/-- One step of `final_df[path_column].dropna().items()`: keep an indexed
row when its path cell is non-null. -/
def pathEntry (c : String) (p : Nat × Row) : Option (Nat × JsonVal) :=
  match getCol p.2 c with
  | .null => none
  | v => some (p.1, v)

/-- The pairs `(idx, uri)` produced by
`final_df[path_column].dropna().items()`: positional index and cell value of
every non-null entry of the path column. -/
def pathItems (df : DF) (c : String) : List (Nat × JsonVal) :=
  df.enum.filterMap (pathEntry c)

/-- Embedding of `read_custom_out_path_and_load` (lines 174-194): for each
non-null entry of `path_column`, fetch the detail document; on success tag
its records with `source_index` and `source_file` and collect them, on any
exception skip that location; return the concatenation, or an empty frame
when nothing was collected. -/
def read_custom_out_path_and_load (fetch : String → Except String DF)
    (final_df : DF) (path_column : String) : DF :=
  (pathItems final_df path_column).flatMap (fun it =>
    match fetch (asStr it.2) with
    | .ok df_temp =>
        df_temp.map (fun rec =>
          setCol (setCol rec "source_index" (.n it.1)) "source_file" it.2)
    | .error _ => [])

/-- Embedding of `retrieve_inference_results` (lines 196-212): read the
manifest (here: the already-deserialized frame), concat the normalized
`output_metadata` column, explode `segment_metadata`, and concat the
normalized `segment_metadata` column.  Either `pd.json_normalize` call
raises — and so aborts the whole function — when it meets a non-dict
record, in particular the `NaN` an empty segment list leaves behind after
the explode step. -/
def retrieve_inference_results (df_invocation_metadata : DF) : Except String DF :=
  match json_normalize_df (colVals df_invocation_metadata "output_metadata") with
  | .error e => .error e
  | .ok meta =>
    let withMeta := concatCols df_invocation_metadata meta
    let df_exploded_output := explode_df withMeta "segment_metadata"
    match json_normalize_df (colVals df_exploded_output "segment_metadata") with
    | .error e => .error e
    | .ok segs => .ok (concatCols df_exploded_output segs)

/-! ### SchemaReconciler (source: `main`, lines 281-313) -/

/-- Whether the frame has the column at all
(`"custom_output_path" in exploded_job_metadata.columns`). -/
def dfHasCol (df : DF) (c : String) : Bool :=
  df.any (fun r => hasCol r c)

/-- Lines 288-290: `custom_extracted_details["blueprintName"] =
pd.json_normalize(custom_extracted_details["matched_blueprint"])["name"]`:
normalize the whole `matched_blueprint` column (raising on any non-dict
cell) and assign its `name` column row by row. -/
def addBlueprintName (df : DF) : Except String DF :=
  match json_normalize_df (colVals df "matched_blueprint") with
  | .error e => .error e
  | .ok nrm =>
      .ok (df.zipWith (fun r nr => setCol r "blueprintName" (getCol nr "name")) nrm)

/-- The enrichment one standard record receives from the `IMAGE` branch
when the column-wide `json_normalize` succeeds: its own flattened `image`
fields copied into `summary`, `extracted_text_words`,
`extracted_text_lines` (lines 296-300). -/
def enrichImageRow (r : Row) : Row :=
  let nrm := flattenTop (objFields (getCol r "image"))
  setCol (setCol (setCol r
      "summary" (getCol nrm "summary"))
      "extracted_text_words" (getCol nrm "text_words"))
      "extracted_text_lines" (getCol nrm "text_lines")

/-- The enrichment one standard record receives from the `VIDEO` branch
when the column-wide `json_normalize` succeeds: its own flattened `video`
fields copied into `summary` and `extracted_transcript` (lines 302-306). -/
def enrichVideoRow (r : Row) : Row :=
  let nrm := flattenTop (objFields (getCol r "video"))
  setCol (setCol r
      "summary" (getCol nrm "summary"))
      "extracted_transcript" (getCol nrm "transcript.representation.text")

/-- Lines 296-300, the `IMAGE` branch:
`pd.json_normalize(standard_extracted_details["image"])` over the whole
column — raising as soon as any record's `image` cell is not a dict (for
instance the `NaN` of a record that came from a non-image detail document)
— then column assignment of `summary`, `text_words`, `text_lines`. -/
def enrichImage (std : DF) : Except String DF :=
  match json_normalize_df (colVals std "image") with
  | .error e => .error e
  | .ok nrm =>
      .ok (std.zipWith (fun r nr =>
        setCol (setCol (setCol r
            "summary" (getCol nr "summary"))
            "extracted_text_words" (getCol nr "text_words"))
            "extracted_text_lines" (getCol nr "text_lines")) nrm)

/-- Lines 302-306, the `VIDEO` branch, analogous to `enrichImage`. -/
def enrichVideo (std : DF) : Except String DF :=
  match json_normalize_df (colVals std "video") with
  | .error e => .error e
  | .ok nrm =>
      .ok (std.zipWith (fun r nr =>
        setCol (setCol r
            "summary" (getCol nr "summary"))
            "extracted_transcript" (getCol nr "transcript.representation.text")) nrm)

/-- The `if/elif` dispatch of lines 295-306: apply the extraction selected
by the single extracted modality tag to the WHOLE standard frame; any tag
other than `"IMAGE"` or `"VIDEO"` (and any non-string tag) passes the frame
through unchanged. -/
def modalityBranch (modality_extracted : JsonVal) (std : DF) : Except String DF :=
  match modality_extracted with
  | .s m =>
      if m = "IMAGE" then enrichImage std
      else if m = "VIDEO" then enrichVideo std
      else .ok std
  | _ => .ok std

/-- Embedding of `main`, lines 281-313 (the SchemaReconciler): read the
modality tag from `exploded_job_metadata["semantic_modality"][0]` — the
FIRST row of the post-expansion manifest —, build the custom-output frame
when a `custom_output_path` column exists, always build the standard-output
frame, apply the modality branch selected by that single tag to the whole
standard frame, and concatenate custom and standard rows.  A raise in the
blueprint-name step or in the modality branch aborts the reconciliation, in
the source's evaluation order. -/
def schemaReconcile (fetch : String → Except String DF)
    (exploded_job_metadata : DF) : Except String DF :=
  let modality_extracted := getCol (exploded_job_metadata.headD []) "semantic_modality"
  match (if dfHasCol exploded_job_metadata "custom_output_path" then
      addBlueprintName
        (read_custom_out_path_and_load fetch exploded_job_metadata "custom_output_path")
    else .ok []) with
  | .error e => .error e
  | .ok custom_extracted_details =>
    match modalityBranch modality_extracted
        (read_custom_out_path_and_load fetch exploded_job_metadata
          "standard_output_path") with
    | .error e => .error e
    | .ok standard_extracted_details =>
        .ok (custom_extracted_details ++ standard_extracted_details)

/-! ### ConfigurationProvisioner (source: `_project_exists`, lines 38-49,
and `create_bda_project`, lines 51-133)

The managed service is modelled by the list of projects its paginated
listing returns plus the ARN it would assign to the next created project;
`create_data_automation_project` is the external create API: it registers
the new project (so later listings contain it) and returns its record. -/

/-- A project record as it appears in the service listing and in the
create response: identity is the ARN, lookup is by name. -/
structure Project where
  projectName : String
  projectArn : String
deriving Repr, DecidableEq

/-- The Python value returned by `_project_exists`: the matching project
dict, or a boolean.  The constructor `pyTrue` is the value the docstring
and the `-> bool` annotation promise on a hit; the code never produces it. -/
inductive PyLookup where
  | record (p : Project)
  | pyTrue
  | pyFalse
deriving Repr, DecidableEq

/-- Python truthiness of the lookup result (a listed project dict is
non-empty, hence truthy). -/
def PyLookup.truthy : PyLookup → Bool
  | .record _ => true
  | .pyTrue => true
  | .pyFalse => false

/-- Embedding of `_project_exists` (lines 38-49): walk the paginated
listing (flattened to one list, as the source comment says) and return the
first project whose `projectName` matches, else Python `False`. -/
def _project_exists (project_name : String) (projects : List Project) : PyLookup :=
  match projects.find? (fun p => p.projectName == project_name) with
  | some p => .record p
  | none => .pyFalse

/-- Observable state of the managed service: its project listing and the
ARN the next create call would assign. -/
structure ServiceState where
  projects : List Project
  freshArn : String
deriving Repr, DecidableEq

/-- Model of the external `create_data_automation_project` API: register a
project with the given name under a fresh ARN and return its record. -/
def create_data_automation_project (st : ServiceState) (name : String) :
    ServiceState × Project :=
  let p : Project := ⟨name, st.freshArn⟩
  ({ st with projects := st.projects ++ [p] }, p)

/-- What `create_bda_project` returns on success: either the truthy lookup
value (the existing project, line 62) or the create-API response (line 133). -/
inductive CreateReturn where
  | lookupValue (v : PyLookup)
  | createResponse (p : Project)
deriving Repr, DecidableEq

/-- The identity (project ARN) carried by a `create_bda_project` return
value, when it carries one. -/
def CreateReturn.identityArn : CreateReturn → Option String
  | .lookupValue (.record p) => some p.projectArn
  | .lookupValue _ => none
  | .createResponse p => some p.projectArn

/-- Embedding of `create_bda_project` (lines 51-133): look the name up; a
truthy lookup is returned as-is with no create call; otherwise a missing
advertisement-blueprint ARN raises `ValueError`, and else the create API is
called.  The `Bool` component records whether a create call was issued. -/
def create_bda_project (advertisement_arn : Option String) (st : ServiceState)
    (project_name : String) : Except String (ServiceState × Bool × CreateReturn) :=
  let lookup := _project_exists project_name st.projects
  if lookup.truthy then
    .ok (st, false, .lookupValue lookup)
  else
    match advertisement_arn with
    | none => .error "Advertisement blueprint ARN not found."
    | some _ =>
        let r := create_data_automation_project st project_name
        .ok (r.1, true, .createResponse r.2)

/-- The fetcher obtained by replacing every failing fetch with a successful
fetch of an empty document: failures behave exactly as empty contributions. -/
def skipFailures (fetch : String → Except String DF) : String → Except String DF :=
  fun u =>
    match fetch u with
    | .ok d => .ok d
    | .error _ => .ok []

/-- The one-to-many expansion the specification describes for the
ResultLoader, on the inputs where loading succeeds (every `output_metadata`
cell and every exploded segment entry a dict): each manifest row, after its
`output_metadata` is flattened in, yields one output row per element of its
`segment_metadata` cell (per `explodeCell`), namely the parent columns with
the segment slot replaced by that element, followed by the element's
flattened fields. -/
def expandRow (r : Row) : List Row :=
  let rm := r ++ flattenTop (objFields (getCol r "output_metadata"))
  (explodeCell (getCol rm "segment_metadata")).map (fun sg =>
    replaceCol rm "segment_metadata" sg ++ flattenTop (objFields sg))

/-! ### Concrete fixtures used by the closed theorems below -/

/-- Fixture: standard-output detail record of an IMAGE segment, with the
field values used in the specification's modality-branching example. -/
def imgDetail : Row :=
  [("image", .obj [("summary", .s "x"),
      ("text_words", .arr [.s "a", .s "b"]), ("text_lines", .arr [.s "ab"])])]

/-- Fixture: standard-output detail record of a VIDEO segment with a
doubly-nested transcript representation. -/
def vidDetail : Row :=
  [("video", .obj [("summary", .s "sv"),
      ("transcript", .obj [("representation", .obj [("text", .s "hello")])])])]

/-- Fixture fetcher serving the image detail at `"s0"` and the video detail
at `"s1"`. -/
def fetchIV : String → Except String DF := fun u =>
  if u = "s0" then .ok [imgDetail]
  else if u = "s1" then .ok [vidDetail]
  else .error "404"

/-- Fixture: post-expansion manifest row of an IMAGE segment. -/
def imgManifestRow : Row :=
  [("semantic_modality", .s "IMAGE"), ("standard_output_path", .s "s0")]

/-- Fixture: post-expansion manifest row of a VIDEO segment. -/
def vidManifestRow : Row :=
  [("semantic_modality", .s "VIDEO"), ("standard_output_path", .s "s1")]

/-- Fixture: a manifest whose rows carry different modality tags. -/
def mixedManifest : DF := [imgManifestRow, vidManifestRow]

/-- Fixture: custom-output detail record with blueprint match metadata. -/
def customDetail : Row :=
  [("inference_result", .s "ad copy"),
   ("matched_blueprint", .obj [("name", .s "Advertisement")])]

/-- Fixture: manifest row of segment A, having both a custom and a standard
output location. -/
def raFix : Row :=
  [("semantic_modality", .s "IMAGE"), ("custom_output_path", .s "pac"),
   ("standard_output_path", .s "pas")]

/-- Fixture: manifest row of segment B, having only a standard output
location (custom slot null). -/
def rbFix : Row :=
  [("semantic_modality", .s "IMAGE"), ("custom_output_path", .null),
   ("standard_output_path", .s "pbs")]

/-- Fixture fetcher for the two-segment union scenario. -/
def fetchAB : String → Except String DF := fun u =>
  if u = "pac" then .ok [customDetail]
  else if u = "pas" then .ok [imgDetail]
  else if u = "pbs" then .ok [imgDetail]
  else .error "404"

/-- Fixture: a standard-output-only manifest row pointing at `u`. -/
def stdOnlyRow (u : String) : Row :=
  [("semantic_modality", .s "IMAGE"), ("standard_output_path", .s u)]

/-- Fixture: ten post-expansion rows with ten distinct detail locations. -/
def tenManifest : DF :=
  [stdOnlyRow "t0", stdOnlyRow "t1", stdOnlyRow "t2", stdOnlyRow "t3",
   stdOnlyRow "t4", stdOnlyRow "t5", stdOnlyRow "t6", stdOnlyRow "t7",
   stdOnlyRow "t8", stdOnlyRow "t9"]

/-- Fixture fetcher for which exactly the fetch of `"t3"` fails. -/
def fetchT3Fails : String → Except String DF := fun u =>
  if u = "t3" then .error "boom" else .ok [imgDetail]

/-- Fixture: two standard-only rows. -/
def pairManifest : DF := [stdOnlyRow "q0", stdOnlyRow "q1"]

/-- Fixture fetcher succeeding on `"q0"` and failing elsewhere. -/
def fetchQ1Fails : String → Except String DF := fun u =>
  if u = "q0" then .ok [imgDetail] else .error "boom"

/-- Fixture: segment-metadata entry number `i`. -/
def segMeta (i : Nat) : JsonVal := .obj [("segment_index", .n i)]

/-- Fixture: a two-row manifest whose rows carry 3 and 1 segment-metadata
entries respectively. -/
def twoRowManifest : DF :=
  [[("job_id", .s "j1"),
    ("output_metadata", .obj [("segment_metadata",
        .arr [segMeta 0, segMeta 1, segMeta 2])])],
   [("job_id", .s "j1"),
    ("output_metadata", .obj [("segment_metadata", .arr [segMeta 3])])]]

/-- Fixture: a one-row manifest whose row has an empty segment list. -/
def emptySegManifest : DF :=
  [[("output_metadata", .obj [("segment_metadata", .arr [])])]]

/-! ### Lemmas about the row model -/

theorem hasCol_iff {r : Row} {c : String} :
    hasCol r c = true ↔ ∃ kv, kv ∈ r ∧ (kv.1 == c) = true := by
  simp [hasCol, List.any_eq_true]

theorem getCol_of_not_hasCol {r : Row} {c : String} (h : hasCol r c = false) :
    getCol r c = .null := by
  have hf : r.find? (fun kv => kv.1 == c) = none := by
    rw [List.find?_eq_none]
    intro x hx hpx
    exact absurd (hasCol_iff.mpr ⟨x, hx, hpx⟩) (by simp [h])
  simp [getCol, hf]

theorem hasCol_of_getCol_ne_null {r : Row} {c : String} (h : getCol r c ≠ .null) :
    hasCol r c = true := by
  cases hhc : hasCol r c
  · exact absurd (getCol_of_not_hasCol hhc) h
  · rfl

theorem replaceCol_of_not_hasCol {r : Row} {c : String} (h : hasCol r c = false)
    (v : JsonVal) : replaceCol r c v = r := by
  have hk : ∀ kv ∈ r, (if kv.1 == c then (kv.1, v) else kv) = kv := by
    intro kv hkv
    have hb : (kv.1 == c) = false := by
      cases hb : (kv.1 == c)
      · rfl
      · exact absurd (hasCol_iff.mpr ⟨kv, hkv, hb⟩) (by simp [h])
    simp [hb]
  calc replaceCol r c v = r.map id := List.map_congr_left hk
  _ = r := List.map_id r

theorem getCol_cons_pos (kv : String × JsonVal) (t : Row) {c : String}
    (h : (kv.1 == c) = true) : getCol (kv :: t) c = kv.2 := by
  simp [getCol, List.find?_cons, h]

theorem getCol_cons_neg (kv : String × JsonVal) (t : Row) {c : String}
    (h : (kv.1 == c) = false) : getCol (kv :: t) c = getCol t c := by
  simp [getCol, List.find?_cons, h]

theorem replaceCol_cons_pos {kv : String × JsonVal} {c : String} (t : Row)
    (v : JsonVal) (h : (kv.1 == c) = true) :
    replaceCol (kv :: t) c v = (kv.1, v) :: replaceCol t c v := by
  simp only [replaceCol, List.map_cons, if_pos h]

theorem replaceCol_cons_neg {kv : String × JsonVal} {c : String} (t : Row)
    (v : JsonVal) (h : (kv.1 == c) = false) :
    replaceCol (kv :: t) c v = kv :: replaceCol t c v := by
  simp only [replaceCol, List.map_cons, if_neg (by simp [h] : ¬ (kv.1 == c) = true)]

theorem getCol_replaceCol_self {r : Row} {c : String} (h : hasCol r c = true)
    (v : JsonVal) : getCol (replaceCol r c v) c = v := by
  induction r with
  | nil => simp [hasCol] at h
  | cons kv t ih =>
    cases hb : (kv.1 == c)
    · have ht : hasCol t c = true := by
        simpa [hasCol, hb] using h
      rw [replaceCol_cons_neg t v hb, getCol_cons_neg kv (replaceCol t c v) hb]
      exact ih ht
    · rw [replaceCol_cons_pos t v hb, getCol_cons_pos (kv.1, v) (replaceCol t c v) hb]

theorem getCol_replaceCol_ne {c c' : String} (hne : c ≠ c') (r : Row) (v : JsonVal) :
    getCol (replaceCol r c v) c' = getCol r c' := by
  induction r with
  | nil => rfl
  | cons kv t ih =>
    cases hb : (kv.1 == c)
    · rw [replaceCol_cons_neg t v hb]
      cases hb' : (kv.1 == c')
      · rw [getCol_cons_neg kv (replaceCol t c v) hb', getCol_cons_neg kv t hb']
        exact ih
      · rw [getCol_cons_pos kv (replaceCol t c v) hb', getCol_cons_pos kv t hb']
    · have hb' : (kv.1 == c') = false := by
        cases hb2 : (kv.1 == c')
        · rfl
        · exact absurd (by rw [← eq_of_beq hb, eq_of_beq hb2]) hne
      rw [replaceCol_cons_pos t v hb,
        getCol_cons_neg (kv.1, v) (replaceCol t c v) hb', getCol_cons_neg kv t hb']
      exact ih

theorem getCol_append_not_hasCol {r : Row} {c : String} (h : hasCol r c = false)
    (r2 : Row) : getCol (r ++ r2) c = getCol r2 c := by
  have hf : r.find? (fun kv => kv.1 == c) = none := by
    rw [List.find?_eq_none]
    intro x hx hpx
    exact absurd (hasCol_iff.mpr ⟨x, hx, hpx⟩) (by simp [h])
  simp [getCol, List.find?_append, hf]

theorem getCol_setCol_self (r : Row) (c : String) (v : JsonVal) :
    getCol (setCol r c v) c = v := by
  unfold setCol
  cases h : hasCol r c
  · rw [if_neg Bool.false_ne_true, getCol_append_not_hasCol h,
      getCol_cons_pos (c, v) [] (by simp)]
  · rw [if_pos rfl]
    exact getCol_replaceCol_self h v

theorem getCol_setCol_ne {c c' : String} (hne : c ≠ c') (r : Row) (v : JsonVal) :
    getCol (setCol r c v) c' = getCol r c' := by
  unfold setCol
  cases h : hasCol r c
  · rw [if_neg Bool.false_ne_true]
    have hb : (c == c') = false := by
      cases hb2 : (c == c')
      · rfl
      · exact absurd (eq_of_beq hb2) hne
    have hone : List.find? (fun kv => kv.1 == c') [(c, v)] = none := by
      simp [List.find?_cons, hb]
    simp [getCol, List.find?_append, hone]
  · rw [if_pos rfl]
    exact getCol_replaceCol_ne hne r v

/-! ### Lemmas about the frame operations -/

theorem concatCols_map (df : DF) (f : Row → Row) :
    concatCols df (df.map f) = df.map (fun r => r ++ f r) := by
  induction df with
  | nil => rfl
  | cons r t ih =>
    simp only [concatCols, List.map_cons, List.zipWith_cons_cons, List.map] at *
    rw [ih]

theorem zipWith_map_right {α β γ : Type} (f : α → β → γ) (g : α → β) (l : List α) :
    List.zipWith f l (l.map g) = l.map (fun a => f a (g a)) := by
  induction l with
  | nil => rfl
  | cons a t ih => simp only [List.map_cons, List.zipWith_cons_cons, ih]

theorem map_zipWith_left {α β γ δ : Type} (f : α → β → γ) (g : γ → δ) (g' : α → δ)
    (hg : ∀ a b, g (f a b) = g' a) :
    ∀ (l1 : List α) (l2 : List β), l2.length = l1.length →
      (List.zipWith f l1 l2).map g = l1.map g'
  | [], [], _ => rfl
  | [], _ :: _, h => by simp at h
  | _ :: _, [], h => by simp at h
  | a :: t1, b :: t2, h => by
    simp only [List.zipWith_cons_cons, List.map_cons, hg,
      map_zipWith_left f g g' hg t1 t2 (by simpa using h)]

theorem normalizeCells_eq_some {vs : List JsonVal}
    (h : ∀ v ∈ vs, isObj v = true) :
    normalizeCells vs = some (vs.map (fun v => flattenTop (objFields v))) := by
  induction vs with
  | nil => rfl
  | cons v t ih =>
    have hv : isObj v = true := h v (List.mem_cons_self v t)
    obtain ⟨fs, rfl⟩ : ∃ fs, v = .obj fs := by
      cases v <;> simp [isObj] at hv ⊢
    have ht := ih (fun w hw => h w (List.mem_cons_of_mem _ hw))
    simp only [normalizeCells, ht, Option.map_some', List.map_cons, objFields]

theorem normalizeCells_length :
    ∀ {vs : List JsonVal} {d : DF}, normalizeCells vs = some d → d.length = vs.length
  | [], _, h => by
    simp only [normalizeCells, Option.some.injEq] at h
    rw [← h]
    rfl
  | .obj fs :: t, d, h => by
    simp only [normalizeCells, Option.map_eq_some'] at h
    obtain ⟨d', hd', rfl⟩ := h
    simp only [List.length_cons, normalizeCells_length hd']
  | .s _ :: _, _, h => by simp [normalizeCells] at h
  | .n _ :: _, _, h => by simp [normalizeCells] at h
  | .arr _ :: _, _, h => by simp [normalizeCells] at h
  | .null :: _, _, h => by simp [normalizeCells] at h

theorem concatCols_flatten (df : DF) (c : String) :
    concatCols df ((colVals df c).map (fun v => flattenTop (objFields v)))
      = df.map (fun r => r ++ flattenTop (objFields (getCol r c))) := by
  unfold colVals
  rw [List.map_map]
  exact concatCols_map df _

theorem getCol_replaceCol_explode (r : Row) (c : String) {sg : JsonVal}
    (hsg : sg ∈ explodeCell (getCol r c)) :
    getCol (replaceCol r c sg) c = sg := by
  cases h : hasCol r c
  · rw [replaceCol_of_not_hasCol h, getCol_of_not_hasCol h]
    rw [getCol_of_not_hasCol h] at hsg
    simp only [explodeCell, List.mem_singleton] at hsg
    exact hsg.symm
  · exact getCol_replaceCol_self h sg

theorem exploded_map_flatMap (df : DF) (f : Row → Row) (c : String) :
    explode_df (df.map f) c
      = df.flatMap (fun r =>
          (explodeCell (getCol (f r) c)).map (fun sg => replaceCol (f r) c sg)) := by
  unfold explode_df
  rw [List.flatMap_map]

theorem retrieve_eq_flatMap (df : DF)
    (hmeta : ∀ r ∈ df, isObj (getCol r "output_metadata") = true)
    (hsegs : ∀ r ∈ df, ∀ sg ∈ explodeCell
        (getCol (r ++ flattenTop (objFields (getCol r "output_metadata")))
          "segment_metadata"),
      isObj sg = true) :
    retrieve_inference_results df = .ok (df.flatMap expandRow) := by
  have h1 : normalizeCells (colVals df "output_metadata")
      = some ((colVals df "output_metadata").map (fun v => flattenTop (objFields v))) := by
    apply normalizeCells_eq_some
    intro v hv
    rw [colVals] at hv
    obtain ⟨r, hr, rfl⟩ := List.mem_map.mp hv
    exact hmeta r hr
  have hE : explode_df (concatCols df
        ((colVals df "output_metadata").map (fun v => flattenTop (objFields v))))
        "segment_metadata"
      = df.flatMap (fun r =>
          (explodeCell (getCol (r ++ flattenTop (objFields (getCol r "output_metadata")))
            "segment_metadata")).map
            (fun sg => replaceCol
              (r ++ flattenTop (objFields (getCol r "output_metadata")))
              "segment_metadata" sg)) := by
    rw [concatCols_flatten, exploded_map_flatMap]
  have h2 : normalizeCells (colVals (explode_df (concatCols df
        ((colVals df "output_metadata").map (fun v => flattenTop (objFields v))))
        "segment_metadata") "segment_metadata")
      = some ((colVals (explode_df (concatCols df
          ((colVals df "output_metadata").map (fun v => flattenTop (objFields v))))
          "segment_metadata") "segment_metadata").map
          (fun v => flattenTop (objFields v))) := by
    apply normalizeCells_eq_some
    intro v hv
    rw [colVals] at hv
    obtain ⟨e, he, rfl⟩ := List.mem_map.mp hv
    rw [hE] at he
    obtain ⟨r, hr, he2⟩ := List.mem_flatMap.mp he
    obtain ⟨sg, hsg, rfl⟩ := List.mem_map.mp he2
    rw [getCol_replaceCol_explode _ _ hsg]
    exact hsegs r hr sg hsg
  simp only [retrieve_inference_results, json_normalize_df, h1, h2]
  rw [concatCols_flatten, Except.ok.injEq, hE, List.map_flatMap]
  apply List.flatMap_congr
  intro r _
  rw [List.map_map]
  unfold expandRow
  apply List.map_congr_left
  intro sg hsg
  simp only [Function.comp]
  rw [getCol_replaceCol_explode _ _ hsg]

/-! ### Lemmas about the poller -/

theorem awaitCompletion_iff (cur : StatusPayload) (script : List StatusPayload)
    (final : StatusPayload) (n : Nat) :
    awaitCompletion cur script = some (final, n) ↔
      ((cur :: script)[n]? = some final ∧ final.status ≠ "InProgress" ∧
        ∀ i, i < n → ∀ q, (cur :: script)[i]? = some q → q.status = "InProgress") := by
  induction script generalizing cur n with
  | nil =>
    by_cases h : cur.status = "InProgress"
    · simp only [awaitCompletion, if_pos h]
      constructor
      · intro hc
        exact absurd hc (by simp)
      · rintro ⟨hget, hfin, -⟩
        cases n with
        | zero =>
          rw [List.getElem?_cons_zero, Option.some.injEq] at hget
          exact absurd h (hget ▸ hfin)
        | succ m => simp at hget
    · simp only [awaitCompletion, if_neg h]
      constructor
      · intro hc
        rw [Option.some.injEq, Prod.mk.injEq] at hc
        obtain ⟨rfl, rfl⟩ := hc
        exact ⟨by simp, h, by omega⟩
      · rintro ⟨hget, hfin, -⟩
        cases n with
        | zero =>
          rw [List.getElem?_cons_zero, Option.some.injEq] at hget
          rw [hget]
        | succ m => simp at hget
  | cons p ps ih =>
    by_cases h : cur.status = "InProgress"
    · simp only [awaitCompletion, if_pos h]
      rw [Option.map_eq_some']
      constructor
      · rintro ⟨⟨f1, m⟩, ha, heq⟩
        rw [Prod.mk.injEq] at heq
        obtain ⟨rfl, rfl⟩ := heq
        obtain ⟨hget, hfin, hall⟩ := (ih p m).mp ha
        refine ⟨by simpa using hget, hfin, ?_⟩
        intro i hi q hq
        cases i with
        | zero =>
          rw [List.getElem?_cons_zero, Option.some.injEq] at hq
          rw [← hq]
          exact h
        | succ j =>
          rw [List.getElem?_cons_succ] at hq
          exact hall j (by omega) q hq
      · rintro ⟨hget, hfin, hall⟩
        cases n with
        | zero =>
          rw [List.getElem?_cons_zero, Option.some.injEq] at hget
          exact absurd h (hget ▸ hfin)
        | succ m =>
          rw [List.getElem?_cons_succ] at hget
          refine ⟨(final, m), (ih p m).mpr ⟨hget, hfin, ?_⟩, rfl⟩
          intro i hi q hq
          exact hall (i + 1) (by omega) q (by simpa using hq)
    · simp only [awaitCompletion, if_neg h]
      constructor
      · intro hc
        rw [Option.some.injEq, Prod.mk.injEq] at hc
        obtain ⟨rfl, rfl⟩ := hc
        exact ⟨by simp, h, by omega⟩
      · rintro ⟨hget, hfin, hall⟩
        cases n with
        | zero =>
          rw [List.getElem?_cons_zero, Option.some.injEq] at hget
          rw [hget]
        | succ m =>
          exact absurd (hall 0 (by omega) cur (by simp)) h

/-! ### Lemmas about detail-document fetching -/

theorem read_custom_skipFailures (fetch : String → Except String DF)
    (df : DF) (c : String) :
    read_custom_out_path_and_load (skipFailures fetch) df c =
      read_custom_out_path_and_load fetch df c := by
  unfold read_custom_out_path_and_load
  apply List.flatMap_congr
  intro it _
  unfold skipFailures
  cases fetch (asStr it.2) <;> simp

theorem pathItems_eq_nil {df : DF} {c : String}
    (h : ∀ r ∈ df, getCol r c = .null) : pathItems df c = [] := by
  unfold pathItems
  rw [List.filterMap_eq_nil_iff]
  intro p hp
  have hmem : p.2 ∈ df := by
    have hg := List.mem_enum_iff_getElem?.mp hp
    exact List.getElem?_mem hg
  rw [pathEntry, h p.2 hmem]

theorem read_custom_eq_nil_of_no_paths {fetch : String → Except String DF}
    {df : DF} {c : String} (h : ∀ r ∈ df, getCol r c = .null) :
    read_custom_out_path_and_load fetch df c = [] := by
  unfold read_custom_out_path_and_load
  rw [pathItems_eq_nil h]
  rfl

theorem read_custom_eq_nil_of_all_fail {fetch : String → Except String DF}
    {df : DF} {c : String} (h : ∀ u, ∃ e, fetch u = .error e) :
    read_custom_out_path_and_load fetch df c = [] := by
  unfold read_custom_out_path_and_load
  rw [List.flatMap_eq_nil_iff]
  intro it _
  obtain ⟨e, he⟩ := h (asStr it.2)
  rw [he]

/-! ### Congruence lemmas for the reconciler -/

theorem hasCol_setCol_ne {c c' : String} (hne : c ≠ c') (r : Row) (v : JsonVal) :
    hasCol (setCol r c v) c' = hasCol r c' := by
  unfold setCol
  cases h : hasCol r c
  · rw [if_neg Bool.false_ne_true]
    have hb : (c == c') = false := by
      cases hb2 : (c == c')
      · rfl
      · exact absurd (eq_of_beq hb2) hne
    simp [hasCol, List.any_append, hb]
  · rw [if_pos rfl]
    unfold hasCol replaceCol
    rw [List.any_map]
    congr 1
    funext kv
    simp only [Function.comp]
    cases hbb : (kv.1 == c)
    · rw [if_neg Bool.false_ne_true]
    · rw [if_pos rfl]

theorem filterMap_pathEntry_enumFrom_map (f : Row → Row) (c : String)
    (hf : ∀ r, getCol (f r) c = getCol r c) :
    ∀ (l : List Row) (k : Nat),
      ((l.map f).enumFrom k).filterMap (pathEntry c) =
        (l.enumFrom k).filterMap (pathEntry c)
  | [], _ => rfl
  | r :: t, k => by
    have hentry : pathEntry c (k, f r) = pathEntry c (k, r) := by
      unfold pathEntry
      rw [show getCol (k, f r).2 c = getCol (k, r).2 c from hf r]
    simp only [List.map_cons, List.enumFrom_cons, List.filterMap_cons, hentry]
    rw [filterMap_pathEntry_enumFrom_map f c hf t (k + 1)]

theorem pathItems_cons_map (r0 : Row) (rest : List Row) (f : Row → Row) (c : String)
    (hf : ∀ r, getCol (f r) c = getCol r c) :
    pathItems (r0 :: rest.map f) c = pathItems (r0 :: rest) c := by
  unfold pathItems
  rw [List.enum_cons, List.enum_cons, List.filterMap_cons, List.filterMap_cons,
    filterMap_pathEntry_enumFrom_map f c hf rest 1]

theorem read_custom_cons_map (fetch : String → Except String DF) (r0 : Row)
    (rest : List Row) (f : Row → Row) (c : String)
    (hf : ∀ r, getCol (f r) c = getCol r c) :
    read_custom_out_path_and_load fetch (r0 :: rest.map f) c =
      read_custom_out_path_and_load fetch (r0 :: rest) c := by
  unfold read_custom_out_path_and_load
  rw [pathItems_cons_map r0 rest f c hf]

theorem dfHasCol_cons_map (r0 : Row) (rest : List Row) (f : Row → Row) (c : String)
    (hf : ∀ r, hasCol (f r) c = hasCol r c) :
    dfHasCol (r0 :: rest.map f) c = dfHasCol (r0 :: rest) c := by
  simp only [dfHasCol, List.any_cons, List.any_map]
  have hfx : (fun r => hasCol r c) ∘ f = fun r => hasCol r c := funext hf
  rw [hfx]

theorem getCol_enrichImageRow_ne (r : Row) {c : String} (h1 : c ≠ "summary")
    (h2 : c ≠ "extracted_text_words") (h3 : c ≠ "extracted_text_lines") :
    getCol (enrichImageRow r) c = getCol r c := by
  unfold enrichImageRow
  rw [getCol_setCol_ne (Ne.symm h3), getCol_setCol_ne (Ne.symm h2),
    getCol_setCol_ne (Ne.symm h1)]

theorem getCol_enrichVideoRow_ne (r : Row) {c : String} (h1 : c ≠ "summary")
    (h2 : c ≠ "extracted_transcript") :
    getCol (enrichVideoRow r) c = getCol r c := by
  unfold enrichVideoRow
  rw [getCol_setCol_ne (Ne.symm h2), getCol_setCol_ne (Ne.symm h1)]

theorem schemaReconcile_skipFailures_eq (fetch : String → Except String DF) (df : DF) :
    schemaReconcile (skipFailures fetch) df = schemaReconcile fetch df := by
  simp only [schemaReconcile, read_custom_skipFailures]

/-! ### Lemmas about project provisioning -/

theorem _project_exists_ne_pyTrue (name : String) (l : List Project) :
    _project_exists name l ≠ .pyTrue := by
  unfold _project_exists
  cases l.find? (fun p => p.projectName == name) <;> simp

theorem find?_eq_none_of_pyFalse {name : String} {l : List Project}
    (h : _project_exists name l = .pyFalse) :
    l.find? (fun p => p.projectName == name) = none := by
  unfold _project_exists at h
  cases hf : l.find? (fun p => p.projectName == name)
  · rfl
  · rw [hf] at h
    exact absurd h (by simp)

theorem _project_exists_append_new (name : String) (l : List Project) (p : Project)
    (hl : l.find? (fun q => q.projectName == name) = none)
    (hp : p.projectName = name) :
    _project_exists name (l ++ [p]) = .record p := by
  unfold _project_exists
  rw [List.find?_append, hl]
  simp [hp]

theorem modalityBranch_image (std : DF) :
    modalityBranch (.s "IMAGE") std = enrichImage std := rfl

theorem modalityBranch_video (std : DF) :
    modalityBranch (.s "VIDEO") std = enrichVideo std := rfl

theorem enrichImage_ok_map (std : DF)
    (h : ∀ r ∈ std, isObj (getCol r "image") = true) :
    enrichImage std = .ok (std.map enrichImageRow) := by
  have hn : normalizeCells (colVals std "image")
      = some ((colVals std "image").map (fun v => flattenTop (objFields v))) := by
    apply normalizeCells_eq_some
    intro v hv
    rw [colVals] at hv
    obtain ⟨r, hr, rfl⟩ := List.mem_map.mp hv
    exact h r hr
  simp only [enrichImage, json_normalize_df, hn]
  rw [Except.ok.injEq, colVals, List.map_map, zipWith_map_right]
  rfl

theorem addBlueprintName_ok_map (df : DF)
    (h : ∀ r ∈ df, isObj (getCol r "matched_blueprint") = true) :
    addBlueprintName df = .ok (df.map (fun r =>
      setCol r "blueprintName"
        (getCol (flattenTop (objFields (getCol r "matched_blueprint"))) "name"))) := by
  have hn : normalizeCells (colVals df "matched_blueprint")
      = some ((colVals df "matched_blueprint").map (fun v => flattenTop (objFields v))) := by
    apply normalizeCells_eq_some
    intro v hv
    rw [colVals] at hv
    obtain ⟨r, hr, rfl⟩ := List.mem_map.mp hv
    exact h r hr
  simp only [addBlueprintName, json_normalize_df, hn]
  rw [Except.ok.injEq, colVals, List.map_map, zipWith_map_right]
  rfl

theorem enrichImage_ok_source_file {std out : DF} (h : enrichImage std = .ok out) :
    out.map (fun r => getCol r "source_file")
      = std.map (fun r => getCol r "source_file") := by
  unfold enrichImage json_normalize_df at h
  cases hn : normalizeCells (colVals std "image") with
  | none =>
    rw [hn] at h
    exact absurd h (by simp)
  | some nrm =>
    rw [hn] at h
    simp only [Except.ok.injEq] at h
    subst h
    apply map_zipWith_left _ _ _ ?_ std nrm ?_
    · intro r nr
      rw [getCol_setCol_ne (by decide), getCol_setCol_ne (by decide),
        getCol_setCol_ne (by decide)]
    · rw [normalizeCells_length hn, colVals, List.length_map]

theorem enrichVideo_ok_source_file {std out : DF} (h : enrichVideo std = .ok out) :
    out.map (fun r => getCol r "source_file")
      = std.map (fun r => getCol r "source_file") := by
  unfold enrichVideo json_normalize_df at h
  cases hn : normalizeCells (colVals std "video") with
  | none =>
    rw [hn] at h
    exact absurd h (by simp)
  | some nrm =>
    rw [hn] at h
    simp only [Except.ok.injEq] at h
    subst h
    apply map_zipWith_left _ _ _ ?_ std nrm ?_
    · intro r nr
      rw [getCol_setCol_ne (by decide), getCol_setCol_ne (by decide)]
    · rw [normalizeCells_length hn, colVals, List.length_map]

theorem modalityBranch_ok_source_file {m : JsonVal} {std out : DF}
    (h : modalityBranch m std = .ok out) :
    out.map (fun r => getCol r "source_file")
      = std.map (fun r => getCol r "source_file") := by
  unfold modalityBranch at h
  split at h
  · split at h
    · exact enrichImage_ok_source_file h
    · split at h
      · exact enrichVideo_ok_source_file h
      · rw [Except.ok.injEq] at h
        subst h
        rfl
  · rw [Except.ok.injEq] at h
    subst h
    rfl

theorem schemaReconcile_tail_tags_irrelevant (fetch : String → Except String DF)
    (r0 : Row) (rest : List Row) (v : JsonVal) :
    schemaReconcile fetch (r0 :: rest.map (fun r => setCol r "semantic_modality" v))
      = schemaReconcile fetch (r0 :: rest) := by
  have hcust := read_custom_cons_map fetch r0 rest
    (fun r => setCol r "semantic_modality" v) "custom_output_path"
    (fun r => getCol_setCol_ne (by decide) r v)
  have hstd := read_custom_cons_map fetch r0 rest
    (fun r => setCol r "semantic_modality" v) "standard_output_path"
    (fun r => getCol_setCol_ne (by decide) r v)
  have hhas := dfHasCol_cons_map r0 rest
    (fun r => setCol r "semantic_modality" v) "custom_output_path"
    (fun r => hasCol_setCol_ne (by decide) r v)
  simp only [schemaReconcile, List.headD_cons]
  rw [hhas, hcust, hstd]

theorem pathItems_pair_left {ra rb : Row} {c : String} {u : String}
    (h1 : getCol ra c = .s u) (h2 : getCol rb c = .null) :
    pathItems [ra, rb] c = [(0, .s u)] := by
  simp only [pathItems, List.enum_cons, List.enumFrom_cons, List.enumFrom_nil,
    List.filterMap_cons, List.filterMap_nil, pathEntry, h1, h2]

theorem pathItems_pair_both {ra rb : Row} {c : String} {u1 u2 : String}
    (h1 : getCol ra c = .s u1) (h2 : getCol rb c = .s u2) :
    pathItems [ra, rb] c = [(0, .s u1), (1, .s u2)] := by
  simp only [pathItems, List.enum_cons, List.enumFrom_cons, List.enumFrom_nil,
    List.filterMap_cons, List.filterMap_nil, pathEntry, h1, h2]

theorem read_custom_of_pathItems_one {fetch : String → Except String DF}
    {df : DF} {c : String} {u : String} {d : Row}
    (hp : pathItems df c = [(0, .s u)]) (hf : fetch u = .ok [d]) :
    read_custom_out_path_and_load fetch df c
      = [setCol (setCol d "source_index" (.n 0)) "source_file" (.s u)] := by
  simp only [read_custom_out_path_and_load, hp, List.flatMap_cons, List.flatMap_nil,
    asStr, hf, List.map_cons, List.map_nil, List.append_nil]

theorem read_custom_of_pathItems_two {fetch : String → Except String DF}
    {df : DF} {c : String} {u1 u2 : String} {d1 d2 : Row}
    (hp : pathItems df c = [(0, .s u1), (1, .s u2)])
    (hf1 : fetch u1 = .ok [d1]) (hf2 : fetch u2 = .ok [d2]) :
    read_custom_out_path_and_load fetch df c
      = [setCol (setCol d1 "source_index" (.n 0)) "source_file" (.s u1),
         setCol (setCol d2 "source_index" (.n 1)) "source_file" (.s u2)] := by
  simp only [read_custom_out_path_and_load, hp, List.flatMap_cons, List.flatMap_nil,
    asStr, hf1, hf2, List.map_cons, List.map_nil, List.append_nil,
    List.singleton_append]

/-- Claim C7 (confirmed): the final assembly is an outer union, not a join.
For every manifest where segment A has both a custom and a standard output
and segment B has only a standard output, all three detail fetches
succeeding with one-record documents, A's custom record carrying dict
match metadata and the modality branch succeeding on the standard frame,
the final table holds exactly 1 custom-path row (for A) followed by the
2 standard-path rows (for A and B) — 3 rows total, their `source_file`
provenance being the custom location then the two standard locations, with
no collapse of A's two output-kind rows into one. -/
theorem schemaReconcile_outer_union
    (fetch : String → Except String DF) (ra rb ca sa sb : Row)
    (pac pas pbs : String) {out : DF}
    (hac : getCol ra "custom_output_path" = .s pac)
    (hsa : getCol ra "standard_output_path" = .s pas)
    (hbc : getCol rb "custom_output_path" = .null)
    (hbs : getCol rb "standard_output_path" = .s pbs)
    (hfc : fetch pac = .ok [ca])
    (hfa : fetch pas = .ok [sa])
    (hfb : fetch pbs = .ok [sb])
    (hbp : isObj (getCol ca "matched_blueprint") = true)
    (hbr : modalityBranch (getCol ra "semantic_modality")
        [setCol (setCol sa "source_index" (.n 0)) "source_file" (.s pas),
         setCol (setCol sb "source_index" (.n 1)) "source_file" (.s pbs)]
      = .ok out) :
    Except.map (fun d => d.map (fun r => getCol r "source_file"))
        (schemaReconcile fetch [ra, rb]) = .ok [.s pac, .s pas, .s pbs] ∧
    Except.map List.length (schemaReconcile fetch [ra, rb]) = .ok 3 := by
  have hrc := read_custom_of_pathItems_one (pathItems_pair_left hac hbc) hfc
  have hrs := read_custom_of_pathItems_two (pathItems_pair_both hsa hbs) hfa hfb
  have hhascol : dfHasCol [ra, rb] "custom_output_path" = true := by
    have hra : hasCol ra "custom_output_path" = true :=
      hasCol_of_getCol_ne_null (by rw [hac]; exact fun hx => JsonVal.noConfusion hx)
    simp [dfHasCol, hra]
  have hbp' : ∀ r ∈ [setCol (setCol ca "source_index" (.n 0)) "source_file" (.s pac)],
      isObj (getCol r "matched_blueprint") = true := by
    intro r hr
    rw [List.mem_singleton] at hr
    subst hr
    rw [getCol_setCol_ne (by decide), getCol_setCol_ne (by decide)]
    exact hbp
  have hcustom := addBlueprintName_ok_map _ hbp'
  have hmain : schemaReconcile fetch [ra, rb] = .ok
      (([setCol (setCol ca "source_index" (.n 0)) "source_file" (.s pac)].map (fun r =>
          setCol r "blueprintName"
            (getCol (flattenTop (objFields (getCol r "matched_blueprint"))) "name")))
        ++ out) := by
    simp only [schemaReconcile, List.headD_cons, hhascol, if_true, hrc, hrs,
      hcustom, hbr]
  have hstdsrc := modalityBranch_ok_source_file hbr
  have hlenout : out.length = 2 := by
    have hl := congrArg List.length hstdsrc
    simp only [List.length_map] at hl
    simpa using hl
  constructor
  · rw [hmain]
    simp only [Except.map, List.map_append, List.map_cons, List.map_nil, hstdsrc]
    rw [getCol_setCol_ne (by decide), getCol_setCol_self,
      getCol_setCol_self, getCol_setCol_self]
    rfl
  · rw [hmain]
    simp only [Except.map, List.length_append, List.length_map, List.length_cons,
      List.length_nil, hlenout]

/-! ### Claim theorems -/

/-- Claim C1, amended: the modality branch of the SchemaReconciler is NOT
applied per row; the extraction is selected once, from the FIRST
post-expansion row's `semantic_modality` tag, and applied uniformly to the
whole standard frame.  First conjunct: overwriting every non-first row's
tag (with any value) leaves the reconciled result unchanged — only the
first row's tag is consulted.  Second conjunct: when the first row is
tagged IMAGE, the branch applied to ANY standard frame is the image
extraction.  Third conjunct: that uniformly-applied image extraction
enriches each standard record from its own `image` field when every record
carries a dict `image` field — on a mixed manifest, where some record
lacks one, the column-wide `json_normalize` raises instead and the
pipeline aborts (see the counterexample). -/
theorem schemaReconcile_first_row_tag_only (fetch : String → Except String DF)
    (r0 : Row) (rest : List Row) (v : JsonVal) :
    (schemaReconcile fetch
        (r0 :: rest.map (fun r => setCol r "semantic_modality" v))
      = schemaReconcile fetch (r0 :: rest)) ∧
    (getCol r0 "semantic_modality" = .s "IMAGE" →
      ∀ std : DF,
        modalityBranch (getCol ((r0 :: rest).headD []) "semantic_modality") std
          = enrichImage std) ∧
    (∀ std : DF, (∀ r ∈ std, isObj (getCol r "image") = true) →
      enrichImage std = .ok (std.map enrichImageRow)) :=
  ⟨schemaReconcile_tail_tags_irrelevant fetch r0 rest v,
   fun h std => by rw [List.headD_cons, h]; exact modalityBranch_image std,
   fun std h => enrichImage_ok_map std h⟩

/-- Witness for `schemaReconcile_first_row_tag_only` at a concrete one-row
IMAGE manifest: the branch selected by the first row's tag is the image
extraction even for a video-only standard frame, and on an all-image frame
the extraction succeeds row by row; hypotheses discharged by evaluation. -/
theorem schemaReconcile_first_row_tag_only_witness :
    modalityBranch (getCol ((imgManifestRow :: ([] : List Row)).headD [])
        "semantic_modality") [vidDetail] = enrichImage [vidDetail] ∧
    enrichImage [imgDetail] = .ok ([imgDetail].map enrichImageRow) := by
  constructor
  · exact (schemaReconcile_first_row_tag_only fetchIV imgManifestRow [] .null).2.1
      rfl [vidDetail]
  · apply (schemaReconcile_first_row_tag_only fetchIV imgManifestRow [] .null).2.2
    intro r hr
    rw [List.mem_singleton] at hr
    subst hr
    rfl

/-- Claim C1, counterexample: in `mixedManifest` the second row is tagged
VIDEO, but no table in which that row is enriched per its own tag is ever
produced: the IMAGE branch chosen from the FIRST row's tag runs
`json_normalize` over the `image` column, meets the video record's missing
(`NaN`) image cell, raises, and the reconciliation aborts — while the
per-row VIDEO extraction of that very record would have succeeded with
`extracted_transcript = "hello"`. -/
theorem schemaReconcile_not_per_row_counterexample :
    getCol (mixedManifest.getD 1 []) "semantic_modality" = .s "VIDEO" ∧
    schemaReconcile fetchIV mixedManifest
      = .error "AttributeError: json_normalize on a non-dict record" ∧
    Except.map (fun d => getCol (d.getD 0 []) "extracted_transcript")
      (enrichVideo [vidDetail]) = .ok (.s "hello") :=
  ⟨rfl, rfl, rfl⟩

/-- Claim C2, amended: a failed detail fetch contributes no row at all to
the final table (it behaves exactly as a successful fetch of an empty
document), the pipeline does not abort on it, and the successfully fetched
rows are unaffected; in particular with ten standard detail locations of
which exactly one fails, the final table has 9 rows, not 10 — the failed
(segment, output-kind) pair is absent rather than present with absent
markers. -/
theorem schemaReconcile_failure_isolation (fetch : String → Except String DF)
    (df : DF) :
    schemaReconcile (skipFailures fetch) df = schemaReconcile fetch df ∧
    Except.map List.length (schemaReconcile fetchT3Fails tenManifest) = .ok 9 :=
  ⟨schemaReconcile_skipFailures_eq fetch df, rfl⟩

/-- Claim C2, counterexample: two segments with standard outputs only, the
fetch of the second one fails; the final table has 1 row, not the 2 rows
(one per (segment, output-kind) pair) the claim requires. -/
theorem schemaReconcile_failed_row_absent_counterexample :
    Except.map List.length (schemaReconcile fetchQ1Fails pairManifest) = .ok 1 ∧
    (1 : Nat) ≠ 2 :=
  ⟨rfl, by decide⟩

/-- Claim C3, amended: the polling loop continues exactly while the
observed status is the literal `"InProgress"`; ANY other status — including
a submitted/created status — stops it.  `awaitCompletion cur script`
returns `(final, n)` precisely when poll `n` (counting the initial call as
poll 0, so `n` delayed re-polls were performed) is the first to return a
status other than `"InProgress"`, and that poll's payload is returned. -/
theorem awaitCompletion_iff_first_not_inprogress (cur : StatusPayload)
    (script : List StatusPayload) (final : StatusPayload) (n : Nat) :
    awaitCompletion cur script = some (final, n) ↔
      ((cur :: script)[n]? = some final ∧ final.status ≠ "InProgress" ∧
        ∀ i, i < n → ∀ q, (cur :: script)[i]? = some q →
          q.status = "InProgress") :=
  awaitCompletion_iff cur script final n

/-- Witness for `awaitCompletion_iff_first_not_inprogress`, read off a
concrete run with one delayed re-poll. -/
theorem awaitCompletion_iff_first_not_inprogress_witness :
    (((⟨"InProgress", none⟩ : StatusPayload) ::
        [⟨"Success", some "s3://out"⟩])[1]? = some ⟨"Success", some "s3://out"⟩) ∧
    (StatusPayload.mk "Success" (some "s3://out")).status ≠ "InProgress" := by
  have h := (awaitCompletion_iff_first_not_inprogress ⟨"InProgress", none⟩
    [⟨"Success", some "s3://out"⟩] ⟨"Success", some "s3://out"⟩ 1).mp rfl
  exact ⟨h.1, h.2.1⟩

/-- Claim C3, counterexample: a first poll returning `"SUBMITTED"` — which
is neither SUCCEEDED nor FAILED — stops polling immediately with zero
delayed re-polls, so SUBMITTED is not treated like IN_PROGRESS. -/
theorem awaitCompletion_submitted_stops_counterexample :
    awaitCompletion ⟨"SUBMITTED", none⟩ [⟨"Success", some "s3://out"⟩] =
      some (⟨"SUBMITTED", none⟩, 0) ∧
    "SUBMITTED" ≠ "SUCCEEDED" ∧ "SUBMITTED" ≠ "FAILED" :=
  ⟨rfl, by decide, by decide⟩

/-- Claim C4 (confirmed): for the scripted status sequence IN_PROGRESS,
IN_PROGRESS, SUCCEEDED (in the source's status strings: two `"InProgress"`
payloads, then the terminal success payload), the polling loop performs
exactly 2 delayed re-polls and returns exactly the terminal payload,
including its output manifest location. -/
theorem awaitCompletion_two_delayed_repolls :
    awaitCompletion ⟨"InProgress", none⟩
        [⟨"InProgress", none⟩,
         ⟨"Success", some "s3://bda/inference_results/job_metadata.json"⟩] =
      some (⟨"Success", some "s3://bda/inference_results/job_metadata.json"⟩, 2) :=
  rfl

/-- Claim C5 (confirmed): project provisioning is idempotent.  First
conjunct: when a project of the given name already exists (the lookup
returns its record), `create_bda_project` issues no create call, leaves the
service state unchanged and returns the existing record unchanged.  Second
conjunct: after any successful provisioning call, a second call with the
same name issues no create call, leaves the state unchanged, returns the
listed record of that name, and that record carries the same identity
(project ARN) as the first call's return value. -/
theorem create_bda_project_idempotent (adv : Option String) (st : ServiceState)
    (name : String) :
    (∀ p, _project_exists name st.projects = .record p →
        create_bda_project adv st name = .ok (st, false, .lookupValue (.record p))) ∧
    (∀ st1 created ret, create_bda_project adv st name = .ok (st1, created, ret) →
        create_bda_project adv st1 name =
          .ok (st1, false, .lookupValue (_project_exists name st1.projects)) ∧
        CreateReturn.identityArn
            (.lookupValue (_project_exists name st1.projects)) = ret.identityArn ∧
        ret.identityArn ≠ none) := by
  constructor
  · intro p hp
    simp [create_bda_project, hp, PyLookup.truthy]
  · intro st1 created ret h
    cases hpe : _project_exists name st.projects with
    | pyTrue => exact absurd hpe (_project_exists_ne_pyTrue name st.projects)
    | record p =>
      simp only [create_bda_project, hpe, PyLookup.truthy, if_true] at h
      rw [Except.ok.injEq, Prod.mk.injEq, Prod.mk.injEq] at h
      obtain ⟨rfl, -, rfl⟩ := h
      refine ⟨?_, by rw [hpe], by simp [CreateReturn.identityArn]⟩
      simp [create_bda_project, hpe, PyLookup.truthy]
    | pyFalse =>
      have hfind := find?_eq_none_of_pyFalse hpe
      simp only [create_bda_project, hpe, PyLookup.truthy, Bool.false_eq_true,
        if_false, create_data_automation_project] at h
      cases adv with
      | none => exact absurd h (by simp)
      | some a =>
        rw [Except.ok.injEq, Prod.mk.injEq, Prod.mk.injEq] at h
        obtain ⟨rfl, -, rfl⟩ := h
        have hnew : _project_exists name
            (st.projects ++ [⟨name, st.freshArn⟩]) = .record ⟨name, st.freshArn⟩ :=
          _project_exists_append_new name st.projects _ hfind rfl
        refine ⟨?_, ?_, by simp [CreateReturn.identityArn]⟩
        · simp [create_bda_project, hnew, PyLookup.truthy]
        · simp only [hnew, CreateReturn.identityArn]

/-- Witness for `create_bda_project_idempotent`: a create on an empty
listing followed by a second call with the same name, and a call against a
listing that already contains the name; hypotheses discharged by
evaluation. -/
theorem create_bda_project_idempotent_witness :
    create_bda_project (some "bparn") ⟨[⟨"P", "arn0"⟩], "arn9"⟩ "P" =
      .ok (⟨[⟨"P", "arn0"⟩], "arn9"⟩, false, .lookupValue (.record ⟨"P", "arn0"⟩)) ∧
    create_bda_project (some "bparn") ⟨[⟨"P", "arnN"⟩], "arnN"⟩ "P" =
      .ok (⟨[⟨"P", "arnN"⟩], "arnN"⟩, false,
        .lookupValue (_project_exists "P" [⟨"P", "arnN"⟩])) := by
  refine ⟨(create_bda_project_idempotent (some "bparn")
    ⟨[⟨"P", "arn0"⟩], "arn9"⟩ "P").1 ⟨"P", "arn0"⟩ rfl, ?_⟩
  exact ((create_bda_project_idempotent (some "bparn")
    ⟨[], "arnN"⟩ "P").2 _ _ _ rfl).1

/-- Claim C6, amended: on the manifests the loader accepts — every row's
`output_metadata` a dict and every exploded segment entry a dict, which in
particular requires every segment list to be non-empty — loading is the
row-by-row one-to-many expansion `expandRow`: a row with N ≥ 1
segment-metadata entries becomes exactly N post-expansion rows, each the
parent row's columns with the segment slot replaced by one entry followed
by that entry's flattened metadata; in particular the 3-and-1-segment
two-row manifest expands to exactly 4 rows.  A manifest containing a row
with an EMPTY segment list is not expanded to 0 rows: the explode step
leaves a `NaN` in the segment column and the subsequent `json_normalize`
raises, aborting the load (see the counterexample). -/
theorem retrieve_inference_results_expansion (df : DF)
    (hmeta : ∀ r ∈ df, isObj (getCol r "output_metadata") = true)
    (hsegs : ∀ r ∈ df, ∀ sg ∈ explodeCell
        (getCol (r ++ flattenTop (objFields (getCol r "output_metadata")))
          "segment_metadata"),
      isObj sg = true) :
    retrieve_inference_results df = .ok (df.flatMap expandRow) ∧
    (∀ r, (expandRow r).length =
      (explodeCell (getCol (r ++ flattenTop (objFields (getCol r "output_metadata")))
        "segment_metadata")).length) ∧
    Except.map List.length (retrieve_inference_results twoRowManifest) = .ok 4 :=
  ⟨retrieve_eq_flatMap df hmeta hsegs, fun r => by simp [expandRow], rfl⟩

theorem all_isObj_of_mem {l : List JsonVal} (hall : l.all isObj = true) :
    ∀ sg ∈ l, isObj sg = true :=
  fun sg hsg => List.all_eq_true.mp hall sg hsg

/-- Witness for `retrieve_inference_results_expansion` at the concrete
3-and-1-segment manifest; both dict-ness hypotheses discharged by
evaluation on the fixture. -/
theorem retrieve_inference_results_expansion_witness :
    retrieve_inference_results twoRowManifest
      = .ok (twoRowManifest.flatMap expandRow) := by
  have hmeta : ∀ r ∈ twoRowManifest, isObj (getCol r "output_metadata") = true := by
    intro r hr
    simp only [twoRowManifest, List.mem_cons, List.not_mem_nil, or_false] at hr
    rcases hr with rfl | rfl <;> rfl
  have hsegs : ∀ r ∈ twoRowManifest, ∀ sg ∈ explodeCell
      (getCol (r ++ flattenTop (objFields (getCol r "output_metadata")))
        "segment_metadata"),
      isObj sg = true := by
    intro r hr
    simp only [twoRowManifest, List.mem_cons, List.not_mem_nil, or_false] at hr
    rcases hr with rfl | rfl <;> exact all_isObj_of_mem rfl
  exact (retrieve_inference_results_expansion twoRowManifest hmeta hsegs).1

/-- Claim C6, counterexample: a manifest row whose segment-metadata list is
empty (N = 0) does NOT become 0 post-expansion rows; the loader raises on
the `NaN` left by the explode step and produces no table at all. -/
theorem retrieve_empty_segments_counterexample :
    retrieve_inference_results emptySegManifest
      = .error "AttributeError: json_normalize on a non-dict record" ∧
    retrieve_inference_results emptySegManifest ≠ .ok [] :=
  ⟨rfl, fun h => Except.noConfusion h⟩

/-- Witness for `schemaReconcile_outer_union` at the concrete two-segment
fixtures; all hypotheses discharged by evaluation. -/
theorem schemaReconcile_outer_union_witness :
    Except.map (fun d => d.map (fun r => getCol r "source_file"))
        (schemaReconcile fetchAB [raFix, rbFix]) = .ok [.s "pac", .s "pas", .s "pbs"] ∧
    Except.map List.length (schemaReconcile fetchAB [raFix, rbFix]) = .ok 3 :=
  schemaReconcile_outer_union fetchAB raFix rbFix customDetail imgDetail imgDetail
    "pac" "pas" "pbs" rfl rfl rfl rfl rfl rfl rfl rfl rfl

/-- Claim C8 (confirmed): a STANDARD IMAGE record with nested
`summary="x"`, `text_words=["a","b"]`, `text_lines=["ab"]` yields output
columns `summary="x"`, `extracted_text_words=["a","b"]`,
`extracted_text_lines=["ab"]` (the spec's `extractedTextWords` /
`extractedTextLines`); a STANDARD VIDEO record whose doubly-nested
`transcript.representation.text` is `"hello"` yields its `summary` and
`extracted_transcript="hello"` (the spec's `extractedTranscript`). -/
theorem modality_extraction_fields :
    Except.map (fun d => getCol (d.getD 0 []) "summary")
      (schemaReconcile fetchIV [imgManifestRow]) = .ok (.s "x") ∧
    Except.map (fun d => getCol (d.getD 0 []) "extracted_text_words")
      (schemaReconcile fetchIV [imgManifestRow]) = .ok (.arr [.s "a", .s "b"]) ∧
    Except.map (fun d => getCol (d.getD 0 []) "extracted_text_lines")
      (schemaReconcile fetchIV [imgManifestRow]) = .ok (.arr [.s "ab"]) ∧
    Except.map (fun d => getCol (d.getD 0 []) "summary")
      (schemaReconcile fetchIV [vidManifestRow]) = .ok (.s "sv") ∧
    Except.map (fun d => getCol (d.getD 0 []) "extracted_transcript")
      (schemaReconcile fetchIV [vidManifestRow]) = .ok (.s "hello") :=
  ⟨rfl, rfl, rfl, rfl, rfl⟩

/-- Claim C9 (code bug): the project-existence check does not return a
boolean on a hit.  With a listing containing a project named `"P"`, looking
up `"P"` returns the project record itself and not Python `True` (which the
`-> bool` annotation and the docstring promise); on a miss it does return
`False`. -/
theorem _project_exists_returns_record_not_bool :
    _project_exists "P" [⟨"P", "arnX"⟩] = .record ⟨"P", "arnX"⟩ ∧
    _project_exists "P" [⟨"P", "arnX"⟩] ≠ .pyTrue ∧
    _project_exists "Q" [⟨"P", "arnX"⟩] = .pyFalse :=
  ⟨rfl, by decide, rfl⟩

/-- Claim C10 (confirmed): `read_custom_out_path_and_load` is total with
respect to per-location fetch failures: with no non-null path entries it
returns the empty frame; with every fetch failing it returns the empty
frame; and in general fetch errors are never propagated — they behave
exactly as successful fetches of empty documents. -/
theorem read_custom_out_path_and_load_total (fetch : String → Except String DF)
    (df : DF) (c : String) :
    ((∀ r ∈ df, getCol r c = JsonVal.null) →
      read_custom_out_path_and_load fetch df c = []) ∧
    ((∀ u, ∃ e, fetch u = .error e) →
      read_custom_out_path_and_load fetch df c = []) ∧
    read_custom_out_path_and_load (skipFailures fetch) df c =
      read_custom_out_path_and_load fetch df c :=
  ⟨fun h => read_custom_eq_nil_of_no_paths h,
   fun h => read_custom_eq_nil_of_all_fail h,
   read_custom_skipFailures fetch df c⟩

/-- Witness for `read_custom_out_path_and_load_total`: an all-null path
column, and an always-failing fetcher, both at concrete inputs. -/
theorem read_custom_out_path_and_load_total_witness :
    read_custom_out_path_and_load (fun _ => .error "boom")
      [[("custom_output_path", JsonVal.null)]] "custom_output_path" = [] ∧
    read_custom_out_path_and_load (fun _ => .error "boom")
      [[("custom_output_path", JsonVal.s "s3://detail")]] "custom_output_path" = [] := by
  constructor
  · apply (read_custom_out_path_and_load_total (fun _ => .error "boom")
      [[("custom_output_path", JsonVal.null)]] "custom_output_path").1
    intro r hr
    rw [List.mem_singleton] at hr
    subst hr
    rfl
  · exact (read_custom_out_path_and_load_total (fun _ => .error "boom")
      [[("custom_output_path", JsonVal.s "s3://detail")]] "custom_output_path").2.1
      (fun _ => ⟨"boom", rfl⟩)

end BdaManager
